import Mathlib

/-!
Shallow embedding of the scraper-framework job-orchestration core
(src/src/database.ts: `Database`, `InMemoryDatabase`, `BunSqlDatabase`,
`FetchDownloader`; src/example/index.ts: `ScraperProcessor`).

Modelling conventions:
* `date` timestamps (ISO-8601 strings in the source, produced by
  `new Date().toISOString()` and compared either via `new Date(...)` or by the
  SQL `TIMESTAMP` column) are modelled as `Nat` milliseconds since the epoch;
  ISO strings of this uniform format are order-isomorphic to their numeric
  time values, so every comparison in the source is preserved.
* `Date.now() - processor.intervalMs` can be negative in JS; since every
  stored `date` is a real (non-negative) time, `date < negative` is false in
  JS exactly as `date < 0` is false after truncated `Nat` subtraction.
* JS truthiness of `job.error` (a `string | undefined`) is modelled exactly:
  `undefined` and `""` are falsy, every other string is truthy.
* Promises are modelled as pure functions (the source awaits every call it
  depends on before using its result); thrown exceptions become `Except`.
-/

namespace Scraper

/-- `ProcessorJob` record (src/src/database.ts lines 6-13). -/
structure ProcessorJob where
  url : String
  version : Int
  attempt : Nat
  date : Nat
  processor : String
  error : Option String := none
  deriving Repr, DecidableEq

/-- The configuration surface of `ScraperProcessor` (src/example/index.ts,
processor part, fields `name`, `version`, `intervalMs`, `maxAttempts`) that the
database code reads. -/
structure ScraperProcessor where
  name : String
  version : Int
  intervalMs : Nat
  maxAttempts : Nat
  deriving Repr, DecidableEq

/-- JS truthiness of `job.error` in `job.error && job.attempt < ...`:
`undefined` and the empty string are falsy. -/
def errTruthy : Option String → Bool
  | none => false
  | some s => s != ""

/-- The due filter of `InMemoryDatabase.query` (database.ts lines 98-104),
with the disjuncts in source order. -/
def inMemoryDueFilter (p : ScraperProcessor) (now : Nat) (j : ProcessorJob) : Bool :=
  j.attempt == 0 ||
  j.version != p.version ||
  (errTruthy j.error && decide (j.attempt < p.maxAttempts)) ||
  decide (j.date < now - p.intervalMs)

/-- `InMemoryDatabase.query` (database.ts lines 92-106): filter by processor
name, then by the due predicate, then drop currently-processing URLs.
No ordering, no limit. -/
def InMemoryDatabase.query (jobs : List ProcessorJob) (p : ScraperProcessor)
    (currentlyProcessingUrls : List String) (now : Nat) : List ProcessorJob :=
  ((jobs.filter (fun j => j.processor == p.name)).filter
      (inMemoryDueFilter p now)).filter
    (fun j => !(currentlyProcessingUrls.contains j.url))

/-- A freshly inserted row: `attempt = 0`, the processor's current version,
the insertion time, no error. -/
def freshJob (p : ScraperProcessor) (url : String) (now : Nat) : ProcessorJob :=
  { url := url, version := p.version, attempt := 0, date := now,
    processor := p.name, error := none }

/-- `InMemoryDatabase.batchInsertUrls` (database.ts lines 108-128): keep the
URLs (`newUrls`) with no existing row for this processor, then append one
fresh row per kept URL (note: duplicates within `urls` are NOT filtered
against each other, only against rows already in `jobs`). -/
def InMemoryDatabase.batchInsertUrls (jobs : List ProcessorJob)
    (urls : List String) (p : ScraperProcessor) (now : Nat) : List ProcessorJob :=
  jobs ++ (urls.filter (fun url =>
    !(jobs.any (fun j => j.url == url && j.processor == p.name)))).map
    (fun url => freshJob p url now)

/-- The row-match test of `update` (`j.url === job.url && j.processor ===
job.processor`). -/
def jobMatches (u j : ProcessorJob) : Bool :=
  j.url == u.url && j.processor == u.processor

/-- The four assignments of `InMemoryDatabase.update`: overwrite `version`,
`attempt`, `date`, `error`; `url` and `processor` are untouched. -/
def overwriteFields (j u : ProcessorJob) : ProcessorJob :=
  { j with version := u.version, attempt := u.attempt,
           date := u.date, error := u.error }

/-- In-place mutation of the first matching row found by `find` in
`InMemoryDatabase.update`. -/
def updateFirst : List ProcessorJob → ProcessorJob → List ProcessorJob
  | [], _ => []
  | j :: rest, u =>
    if jobMatches u j then overwriteFields j u :: rest
    else j :: updateFirst rest u

/-- `InMemoryDatabase.update` (database.ts lines 130-144): mutate the first
row matching (url, processor), or throw "... not found" if none exists. -/
def InMemoryDatabase.update (jobs : List ProcessorJob) (u : ProcessorJob) :
    Except String (List ProcessorJob) :=
  if jobs.any (jobMatches u) then
    Except.ok (updateFirst jobs u)
  else
    Except.error ("Job for URL " ++ u.url ++ " and processor " ++
      u.processor ++ " not found")

/-- The due condition in the SQL `WHERE` clause of `BunSqlDatabase.query`
(database.ts lines 190-195): `error IS NOT NULL` is presence (an empty string
is `NOT NULL` in SQL), disjuncts in source order, and the processor-name test
from the `WHERE processor = ...` conjunct. -/
def bunDueFilter (p : ScraperProcessor) (now : Nat) (j : ProcessorJob) : Bool :=
  j.processor == p.name &&
  (j.attempt == 0 ||
   (j.error.isSome && decide (j.attempt < p.maxAttempts)) ||
   j.version != p.version ||
   decide (j.date < now - p.intervalMs))

/-- The order relation of `ORDER BY date ASC`. -/
def dateLe (a b : ProcessorJob) : Prop := a.date ≤ b.date

instance : DecidableRel dateLe := fun a b => inferInstanceAs (Decidable (a.date ≤ b.date))

instance : IsTotal ProcessorJob dateLe := ⟨fun a b => Nat.le_total a.date b.date⟩

instance : IsTrans ProcessorJob dateLe := ⟨fun _ _ _ => Nat.le_trans⟩

/-- `BunSqlDatabase.query` (database.ts lines 184-213): `SELECT ... WHERE
<due condition> ORDER BY date ASC LIMIT 20`. A stable sort models the SQL
ordering. Note the method signature takes only the processor: the
`currentlyProcessingUrls` argument of the abstract `Database.query` contract
does not appear. -/
def BunSqlDatabase.query (rows : List ProcessorJob) (p : ScraperProcessor)
    (now : Nat) : List ProcessorJob :=
  ((rows.filter (bunDueFilter p now)).insertionSort dateLe).take 20

/-- The call `this.database.query(this, this.currentlyProcessingUrls)`
(processor, `getNextPendingJob`) dispatched to a `BunSqlDatabase`: the
in-flight set is passed but ignored by the override. -/
def BunSqlDatabase.queryDispatch (rows : List ProcessorJob)
    (p : ScraperProcessor) (currentlyProcessingUrls : List String)
    (now : Nat) : List ProcessorJob :=
  let _ := currentlyProcessingUrls
  BunSqlDatabase.query rows p now

/-- `BunSqlDatabase.batchInsertUrls` (database.ts lines 215-230):
`INSERT OR IGNORE` against `PRIMARY KEY (url, processor)` — each row of the
batch is inserted unless a row with its key already exists, including one
inserted earlier from the same batch. -/
def BunSqlDatabase.batchInsertUrls (rows : List ProcessorJob)
    (urls : List String) (p : ScraperProcessor) (now : Nat) : List ProcessorJob :=
  urls.foldl (fun acc url =>
    if acc.any (fun j => j.url == url && j.processor == p.name) then acc
    else acc ++ [freshJob p url now]) rows

/-- `BunSqlDatabase.update` (database.ts lines 238-245): a plain SQL `UPDATE`
setting the serialized job fields on every row matching (url, processor).
An `UPDATE` matching zero rows completes without an error, so the result is
always `ok`. -/
def BunSqlDatabase.update (rows : List ProcessorJob) (u : ProcessorJob) :
    Except String (List ProcessorJob) :=
  Except.ok (rows.map (fun j => if jobMatches u j then u else j))

/-- The observable state of an (in-memory) `Database`: the per-processor
`pendingUrls` buffer, the stored jobs, and the trace of `NEW_JOBS` emissions
(the name of the processor each event was scoped to). The `Map` keyed by
processor object identity becomes an association list keyed by the processor
value. -/
structure DbState where
  pending : List (ScraperProcessor × List String)
  jobs : List ProcessorJob
  events : List String
  deriving Repr, DecidableEq

/-- The `pendingUrls` bookkeeping of `Database.add` (database.ts lines 58-74):
get-or-create the processor's list and push every given URL onto it. No
deduplication of any kind happens here. -/
def addPending : List (ScraperProcessor × List String) → ScraperProcessor →
    List String → List (ScraperProcessor × List String)
  | [], p, urls => [(p, urls)]
  | (q, us) :: rest, p, urls =>
    if q = p then (q, us ++ urls) :: rest
    else (q, us) :: addPending rest p urls

/-- `Database.add` (database.ts lines 58-74): buffer the URLs under the
processor and arm the debounced flush (the timing of the flush is carried by
the debounce utility; its effect on the state is `flushPending` below). -/
def Database.add (s : DbState) (urls : List String) (p : ScraperProcessor) :
    DbState :=
  { s with pending := addPending s.pending p urls }

/-- One iteration step shared by the debounced flush and `close`: skip empty
buffers, otherwise run `batchInsertUrls` (in-memory backend). -/
def flushStep (now : Nat) (jobs : List ProcessorJob)
    (entry : ScraperProcessor × List String) : List ProcessorJob :=
  if entry.2.isEmpty then jobs
  else InMemoryDatabase.batchInsertUrls jobs entry.2 entry.1 now

/-- The body of `insertManyUrlsWrapperDebounced` (database.ts lines 38-56):
for each processor with a non-empty buffer, batch-insert its URLs and emit a
`NEW_JOBS` event scoped to that processor, then clear the whole buffer. -/
def flushPending (s : DbState) (now : Nat) : DbState :=
  { pending := [],
    jobs := s.pending.foldl (flushStep now) s.jobs,
    events := s.events ++
      (s.pending.filter (fun e => !e.2.isEmpty)).map (fun e => e.1.name) }

/-- `Database.close` (database.ts lines 76-84): synchronously batch-insert
every non-empty buffer and clear the buffer — without emitting any
`NEW_JOBS` event. -/
def Database.close (s : DbState) (now : Nat) : DbState :=
  { pending := [],
    jobs := s.pending.foldl (flushStep now) s.jobs,
    events := s.events }

/-- The object literal of the success-path `update` call (src/example/index.ts,
processor part, lines 272-278): `attempt = 1`, `version = this.version`,
fresh `date`, no `error` field. -/
def successRecord (p : ScraperProcessor) (job : ProcessorJob) (now : Nat) :
    ProcessorJob :=
  { url := job.url, version := p.version, attempt := 1, date := now,
    processor := p.name, error := none }

/-- The object literal of the failure-path `update` call (lines 286-292): it
carries no `error` property, so `error` is `undefined`/none. -/
def failureRecord (p : ScraperProcessor) (job : ProcessorJob) (now : Nat) :
    ProcessorJob :=
  { url := job.url, version := p.version, attempt := job.attempt + 1,
    date := now, processor := p.name, error := none }

/-- `ScraperProcessor.processJob` (src/example/index.ts, processor part,
lines 251-299), against the in-memory store, with the download and the
processing callbacks abstracted to their success/failure outcome:
* download failure: log; rethrow it in fail-fast mode, else just `return`
  (no store update);
* download success, callbacks succeed: `update` with the success record;
* download success, a callback fails: rethrow in fail-fast mode, else
  `update` with the failure record. -/
def ScraperProcessor.processJob (jobs : List ProcessorJob)
    (p : ScraperProcessor) (job : ProcessorJob) (now : Nat)
    (downloadOk : Bool) (processOk : Bool) (rethrow : Bool) :
    Except String (List ProcessorJob) :=
  if !downloadOk then
    if rethrow then Except.error "download failed" else Except.ok jobs
  else if processOk then
    InMemoryDatabase.update jobs (successRecord p job now)
  else if rethrow then
    Except.error "process failed"
  else
    InMemoryDatabase.update jobs (failureRecord p job now)

/-- Downloaded content (a Node `Buffer`). -/
abbrev Bytes := List Nat

/-- What `fetch(url)` would yield on this call: a response with its `ok` flag
and body, or a thrown transport error. -/
inductive FetchOutcome
  | response (ok : Bool) (body : Bytes)
  | transportError (msg : String)
  deriving Repr, DecidableEq

/-- Cache contract (`ICache`): key→bytes entries; `get` finds the first
entry for the key. -/
def cacheGet (cache : List (String × Bytes)) (url : String) : Option Bytes :=
  (cache.find? (fun e => e.1 == url)).map (fun e => e.2)

/-- `cache.set(url, buffer)`: store the bytes under the key (newest entry
first, so a later `get` sees it). -/
def cacheSet (cache : List (String × Bytes)) (url : String) (data : Bytes) :
    List (String × Bytes) :=
  (url, data) :: cache

/-- Result of one `FetchDownloader.download` call: the returned bytes or the
thrown error, the cache state afterwards, and whether the semaphore-guarded
fetch body ran at all (`false` on a cache hit). -/
structure DownloadResult where
  result : Except String Bytes
  cache : List (String × Bytes)
  fetched : Bool
  deriving Repr

/-- `FetchDownloader.download` (database.ts, downloader part, lines 280-309):
return cached bytes on a hit (a `Buffer` is always truthy); on a miss run the
fetch inside `semaphore.with`: a transport error propagates, `!response.ok`
throws, and on success the cache is populated before the bytes are returned.
The semaphore only sequences concurrent callers; it does not change the
result, so it is represented by the `fetched` flag marking the guarded
region. -/
def FetchDownloader.download (cache : List (String × Bytes)) (url : String)
    (fetchResult : FetchOutcome) : DownloadResult :=
  match cacheGet cache url with
  | some cached => { result := Except.ok cached, cache := cache, fetched := false }
  | none =>
    match fetchResult with
    | FetchOutcome.transportError msg =>
      { result := Except.error msg, cache := cache, fetched := true }
    | FetchOutcome.response ok body =>
      if ok then
        { result := Except.ok body, cache := cacheSet cache url body,
          fetched := true }
      else
        { result := Except.error ("HTTP error! status for URL: " ++ url),
          cache := cache, fetched := true }

/-- The wait in `getNextPendingJob` (processor part, lines 206-221): a race
between a 1000ms `setTimeout` and this stage's `NEW_JOBS` notification.
`notifyAfter = some d` means the notification would arrive `d` ms into the
wait; `none` means it never arrives. The promise resolves at whichever comes
first, so the wait lasts `min d 1000` (or the full 1000). -/
def waitDelay : Option Nat → Nat
  | none => 1000
  | some d => min d 1000

/-- `ScraperProcessor.getNextPendingJob` (processor part, lines 193-232),
under the mutex (so modelled sequentially). `pending` is `this.pendingJobs`;
`script` supplies, for each future iteration of the `while` loop, the result
of `database.query` together with when a `NEW_JOBS` notification would
arrive if that result is empty. Returns the acquired job, the remaining
local batch, and the absolute time of acquisition; `none` when the finite
script is exhausted (the real loop would keep polling). -/
def ScraperProcessor.getNextPendingJob (pending : List ProcessorJob)
    (script : List (List ProcessorJob × Option Nat)) (t : Nat) :
    Option (ProcessorJob × List ProcessorJob × Nat) :=
  match pending with
  | j :: rest => some (j, rest, t)
  | [] =>
    match script with
    | [] => none
    | (queryResult, notifyAfter) :: restScript =>
      match queryResult with
      | j :: js => some (j, js, t)
      | [] =>
        ScraperProcessor.getNextPendingJob [] restScript (t + waitDelay notifyAfter)

/-! ## Helper lemmas -/

theorem errTruthy_eq_true_iff (e : Option String) :
    errTruthy e = true ↔ ∃ s, e = some s ∧ s ≠ "" := by
  cases e <;> simp [errTruthy]

theorem any_jobMatches_iff (jobs : List ProcessorJob) (u : ProcessorJob) :
    jobs.any (jobMatches u) = true ↔
      ∃ j ∈ jobs, j.url = u.url ∧ j.processor = u.processor := by
  simp [List.any_eq_true, jobMatches]

theorem updateFirst_overwrites (jobs : List ProcessorJob) (u : ProcessorJob)
    (h : ∃ j ∈ jobs, j.url = u.url ∧ j.processor = u.processor) :
    ∃ j' ∈ updateFirst jobs u, j'.url = u.url ∧ j'.processor = u.processor ∧
      j'.version = u.version ∧ j'.attempt = u.attempt ∧
      j'.date = u.date ∧ j'.error = u.error := by
  induction jobs with
  | nil => simp at h
  | cons j rest ih =>
    by_cases hm : jobMatches u j
    · refine ⟨overwriteFields j u, ?_, ?_⟩
      · simp [updateFirst, hm]
      · simp only [jobMatches, Bool.and_eq_true, beq_iff_eq] at hm
        exact ⟨hm.1, hm.2, rfl, rfl, rfl, rfl⟩
    · obtain ⟨j0, hj0mem, hj0⟩ := h
      rcases List.mem_cons.mp hj0mem with h1 | h1
      · exfalso
        apply hm
        subst h1
        simp [jobMatches, hj0.1, hj0.2]
      · obtain ⟨j', hmem, hp⟩ := ih ⟨j0, h1, hj0⟩
        refine ⟨j', ?_, hp⟩
        have hrw : updateFirst (j :: rest) u = j :: updateFirst rest u := by
          simp [updateFirst, hm]
        rw [hrw]
        exact List.mem_cons_of_mem _ hmem

theorem inMemoryUpdate_spec (jobs : List ProcessorJob) (u : ProcessorJob) :
    ((∃ j ∈ jobs, j.url = u.url ∧ j.processor = u.processor) →
      InMemoryDatabase.update jobs u = Except.ok (updateFirst jobs u)) ∧
    ((∀ j ∈ jobs, ¬(j.url = u.url ∧ j.processor = u.processor)) →
      ∃ e, InMemoryDatabase.update jobs u = Except.error e) := by
  constructor
  · intro h
    have ha : jobs.any (jobMatches u) = true := (any_jobMatches_iff jobs u).mpr h
    simp [InMemoryDatabase.update, ha]
  · intro h
    have ha : ¬(jobs.any (jobMatches u) = true) := by
      intro hc
      obtain ⟨j, hjm, hj⟩ := (any_jobMatches_iff jobs u).mp hc
      exact h j hjm hj
    exact ⟨"Job for URL " ++ u.url ++ " and processor " ++ u.processor ++
      " not found", by simp [InMemoryDatabase.update, ha]⟩

/-! ## Claim theorems -/

/-- C1. The claim says `add` deduplicates URLs already pending for the same
stage, so that after a flush the store holds exactly one row per (stage, url)
pair. In the code `add` performs no deduplication and
`InMemoryDatabase.batchInsertUrls` filters only against rows already stored,
not within the flushed batch: adding the same new URL twice inside one
debounce window yields two identical rows in the in-memory store. The SQL
backend (`PRIMARY KEY (url, processor)` + `INSERT OR IGNORE`) yields one row
on the same input, showing the single-row intent. -/
theorem c1_duplicate_url_in_one_flush_creates_two_rows :
    ((flushPending (Database.add ⟨[], [], []⟩ ["u", "u"] ⟨"s", 1, 1000000, 3⟩)
        50).jobs.countP (fun j => j.url == "u" && j.processor == "s")) = 2 ∧
    (BunSqlDatabase.batchInsertUrls [] ["u", "u"] ⟨"s", 1, 1000000, 3⟩
        50).length = 1 := by
  constructor <;> rfl

/-- C2 counterexample. A job with `attempt = 0` whose download fails (without
fail-fast): `processJob` leaves the store completely unchanged — no
retry-incrementing outcome update is written (the single row still has
`attempt = 0` and no `error`). -/
theorem c2_download_failure_leaves_store_unchanged :
    ScraperProcessor.processJob
        [{ url := "u", version := 1, attempt := 0, date := 50,
           processor := "s", error := none }]
        ⟨"s", 1, 1000000, 3⟩
        { url := "u", version := 1, attempt := 0, date := 50,
          processor := "s", error := none }
        100 false true false =
      Except.ok [{ url := "u", version := 1, attempt := 0, date := 50,
                   processor := "s", error := none }] := rfl

/-- C2 amended. On download failure without fail-fast, the worker logs the
error and returns without writing any outcome update: the store is returned
unchanged (no row is touched) and the loop continues with the next job. -/
theorem c2_amended_download_failure_skips_outcome_update
    (jobs : List ProcessorJob) (p : ScraperProcessor) (job : ProcessorJob)
    (now : Nat) (processOk : Bool) :
    ScraperProcessor.processJob jobs p job now false processOk false =
      Except.ok jobs := rfl

/-- C3. The claim says the failure outcome update sets `error` to the latest
failure description. The source's failure-path update object carries no
`error` field, so the stored row ends with `attempt` incremented and `error`
cleared — and consequently the job no longer satisfies any due condition
(retryable-failure needs `error` set), so it is never retried, contradicting
the documented automatic-retry behaviour. Evaluated at the failing input:
a fresh job whose callback fails once. -/
theorem c3_failure_update_drops_error_and_kills_retry :
    ScraperProcessor.processJob
        [{ url := "u", version := 1, attempt := 0, date := 50,
           processor := "s", error := none }]
        ⟨"s", 1, 1000000, 3⟩
        { url := "u", version := 1, attempt := 0, date := 50,
          processor := "s", error := none }
        100 true false false =
      Except.ok [{ url := "u", version := 1, attempt := 1, date := 100,
                   processor := "s", error := none }] ∧
    InMemoryDatabase.query
        [{ url := "u", version := 1, attempt := 1, date := 100,
           processor := "s", error := none }]
        ⟨"s", 1, 1000000, 3⟩ [] 100 = [] := ⟨rfl, rfl⟩

/-- C4 counterexample. The claim requires every backend's due query to
exclude URLs in the passed in-flight set. `BunSqlDatabase.query` ignores the
in-flight argument entirely: a due job whose URL is currently in flight is
still returned. -/
theorem c4_bun_query_returns_inflight_url :
    BunSqlDatabase.queryDispatch
        [{ url := "u", version := 1, attempt := 0, date := 50,
           processor := "s", error := none }]
        ⟨"s", 1, 1000000, 3⟩ ["u"] 100 =
      [{ url := "u", version := 1, attempt := 0, date := 50,
         processor := "s", error := none }] ∧
    "u" ∈ ["u"] := ⟨rfl, by simp⟩

/-- C4 amended. For the in-memory backend the claim holds exactly: a stored
job is selected iff it belongs to the stage and (attempt = 0, or version
differs, or a non-empty error is set and attempt < maxAttempts, or
timestamp < now − retryIntervalMs) and its URL is not in the passed in-flight
set. (The SQL backend applies the same due condition but ignores the
in-flight set.) In particular a job that has exhausted maxAttempts with a
persistent failure fails every disjunct and is no longer selected. -/
theorem c4_amended_inMemory_query_mem_iff
    (jobs : List ProcessorJob) (p : ScraperProcessor) (inflight : List String)
    (now : Nat) (j : ProcessorJob) :
    j ∈ InMemoryDatabase.query jobs p inflight now ↔
      j ∈ jobs ∧ j.processor = p.name ∧
      (j.attempt = 0 ∨ j.version ≠ p.version ∨
        ((∃ s, j.error = some s ∧ s ≠ "") ∧ j.attempt < p.maxAttempts) ∨
        j.date < now - p.intervalMs) ∧
      j.url ∉ inflight := by
  have hc : (!(inflight.contains j.url)) = true ↔ j.url ∉ inflight := by
    simp [List.elem_iff]
  simp only [InMemoryDatabase.query, List.mem_filter, inMemoryDueFilter,
    Bool.or_eq_true, Bool.and_eq_true, beq_iff_eq, bne_iff_ne,
    decide_eq_true_eq, hc]
  cases herr : j.error with
  | none => simp [errTruthy] ; tauto
  | some s =>
    simp only [errTruthy, bne_iff_ne, ne_eq, Option.some.injEq,
      exists_eq_left, exists_eq_left']
    tauto

/-- C5 counterexample. The claim requires `queryDue` to return an
oldest-timestamp-first batch. `InMemoryDatabase.query` returns the due jobs
in storage order: here the first returned job has a strictly later timestamp
(5) than the second (3). -/
theorem c5_inMemory_query_not_oldest_first :
    InMemoryDatabase.query
        [{ url := "a", version := 1, attempt := 0, date := 5,
           processor := "s", error := none },
         { url := "b", version := 1, attempt := 0, date := 3,
           processor := "s", error := none }]
        ⟨"s", 1, 1000000, 3⟩ [] 100 =
      [{ url := "a", version := 1, attempt := 0, date := 5,
         processor := "s", error := none },
       { url := "b", version := 1, attempt := 0, date := 3,
         processor := "s", error := none }] ∧
    (3 : Nat) < 5 := ⟨rfl, by decide⟩

/-- C5 amended. The bounded, oldest-first batch is the SQL backend's
behaviour: `BunSqlDatabase.query` always returns at most 20 jobs, in
non-decreasing `date` order. The in-memory backend returns all due jobs in
storage order, with neither bound nor ordering. -/
theorem c5_amended_bun_query_bounded_and_sorted
    (rows : List ProcessorJob) (p : ScraperProcessor) (now : Nat) :
    (BunSqlDatabase.query rows p now).length ≤ 20 ∧
    (BunSqlDatabase.query rows p now).Pairwise dateLe := by
  constructor
  · simp [BunSqlDatabase.query]
  · have hs : List.Sorted dateLe
        ((rows.filter (bunDueFilter p now)).insertionSort dateLe) :=
      List.sorted_insertionSort dateLe _
    exact List.Pairwise.sublist (List.take_sublist 20 _) hs

/-- C6 counterexample. The claim requires `reportOutcome` to fail with
NotFound when no row exists for (stage, url). `BunSqlDatabase.update` is a
plain SQL `UPDATE`: on an empty table it succeeds silently, returning the
table unchanged. -/
theorem c6_bun_update_missing_row_succeeds_silently :
    BunSqlDatabase.update []
        { url := "u", version := 1, attempt := 1, date := 100,
          processor := "s", error := none } =
      Except.ok [] := rfl

/-- C6 amended. The NotFound behaviour is the in-memory backend's: when no
row matches (url, processor), `InMemoryDatabase.update` throws a "not found"
error; when one exists, the first matching row's `version`, `attempt`,
`date` and `error` are overwritten (url and processor kept). The SQL
backend's `UPDATE` overwrites matching rows but succeeds silently when none
exists. -/
theorem c6_amended_inMemory_update_notfound_or_overwrites
    (jobs : List ProcessorJob) (u : ProcessorJob) :
    ((∀ j ∈ jobs, ¬(j.url = u.url ∧ j.processor = u.processor)) →
      ∃ e, InMemoryDatabase.update jobs u = Except.error e) ∧
    ((∃ j ∈ jobs, j.url = u.url ∧ j.processor = u.processor) →
      ∃ jobs', InMemoryDatabase.update jobs u = Except.ok jobs' ∧
        ∃ j' ∈ jobs', j'.url = u.url ∧ j'.processor = u.processor ∧
          j'.version = u.version ∧ j'.attempt = u.attempt ∧
          j'.date = u.date ∧ j'.error = u.error) := by
  constructor
  · exact (inMemoryUpdate_spec jobs u).2
  · intro h
    exact ⟨updateFirst jobs u, (inMemoryUpdate_spec jobs u).1 h,
      updateFirst_overwrites jobs u h⟩

/-- C6 witness: the amended theorem applied at concrete inputs — an empty
store rejects the report, a store holding the row accepts and overwrites
it. -/
theorem c6_amended_witness :
    (∃ e, InMemoryDatabase.update []
        { url := "u", version := 1, attempt := 1, date := 100,
          processor := "s", error := none } = Except.error e) ∧
    (∃ jobs', InMemoryDatabase.update
        [{ url := "u", version := 1, attempt := 0, date := 50,
           processor := "s", error := none }]
        { url := "u", version := 2, attempt := 1, date := 100,
          processor := "s", error := some "boom" } = Except.ok jobs' ∧
      ∃ j' ∈ jobs', j'.url = "u" ∧ j'.processor = "s" ∧
        j'.version = 2 ∧ j'.attempt = 1 ∧
        j'.date = 100 ∧ j'.error = some "boom") :=
  ⟨(c6_amended_inMemory_update_notfound_or_overwrites [] _).1 (by simp),
   (c6_amended_inMemory_update_notfound_or_overwrites _ _).2
     ⟨{ url := "u", version := 1, attempt := 0, date := 50,
        processor := "s", error := none }, by simp, rfl, rfl⟩⟩

/-- C7. When the download and every processing callback succeed, the outcome
written to the store ends with the row for (stage, url) holding
`attempt = 1`, `version = stage.version`, the fresh timestamp, and no
`error`; its `url` and `processor` fields are untouched (the update mutates
only the other four fields of the matched row). -/
theorem c7_success_outcome_resets_row
    (jobs : List ProcessorJob) (p : ScraperProcessor) (job : ProcessorJob)
    (now : Nat) (rethrow : Bool)
    (h : ∃ j ∈ jobs, j.url = job.url ∧ j.processor = p.name) :
    ∃ jobs', ScraperProcessor.processJob jobs p job now true true rethrow =
        Except.ok jobs' ∧
      ∃ j' ∈ jobs', j'.url = job.url ∧ j'.processor = p.name ∧
        j'.version = p.version ∧ j'.attempt = 1 ∧
        j'.date = now ∧ j'.error = none := by
  have hu : ScraperProcessor.processJob jobs p job now true true rethrow =
      InMemoryDatabase.update jobs (successRecord p job now) := rfl
  rw [hu]
  have h' : ∃ j ∈ jobs, j.url = (successRecord p job now).url ∧
      j.processor = (successRecord p job now).processor := h
  refine ⟨updateFirst jobs (successRecord p job now),
    (inMemoryUpdate_spec jobs _).1 h', ?_⟩
  exact updateFirst_overwrites jobs _ h'

/-- C7 witness: the theorem applied to a one-row store holding the job. -/
theorem c7_success_outcome_witness :
    ∃ jobs', ScraperProcessor.processJob
        [{ url := "u", version := 3, attempt := 2, date := 50,
           processor := "s", error := some "old" }]
        ⟨"s", 7, 1000000, 3⟩
        { url := "u", version := 3, attempt := 2, date := 50,
          processor := "s", error := some "old" }
        100 true true false = Except.ok jobs' ∧
      ∃ j' ∈ jobs', j'.url = "u" ∧ j'.processor = "s" ∧
        j'.version = 7 ∧ j'.attempt = 1 ∧
        j'.date = 100 ∧ j'.error = none :=
  c7_success_outcome_resets_row _ _ _ 100 false
    ⟨{ url := "u", version := 3, attempt := 2, date := 50,
       processor := "s", error := some "old" }, by simp, rfl, rfl⟩

/-- C8. `download` returns cached bytes without running the fetch body on a
hit (cache unchanged); on a miss the semaphore-guarded fetch runs, and:
a 2xx response populates the cache with the body before returning it, a
transport error propagates with the cache unpopulated, and a non-2xx
response raises a download error with the cache unpopulated. -/
theorem c8_download_cache_and_error_semantics
    (cache : List (String × Bytes)) (url : String) (fr : FetchOutcome) :
    (∀ b, cacheGet cache url = some b →
      FetchDownloader.download cache url fr =
        { result := Except.ok b, cache := cache, fetched := false }) ∧
    (∀ body, cacheGet cache url = none → fr = FetchOutcome.response true body →
      FetchDownloader.download cache url fr =
        { result := Except.ok body, cache := cacheSet cache url body,
          fetched := true }) ∧
    (∀ m, cacheGet cache url = none → fr = FetchOutcome.transportError m →
      FetchDownloader.download cache url fr =
        { result := Except.error m, cache := cache, fetched := true }) ∧
    (∀ body, cacheGet cache url = none → fr = FetchOutcome.response false body →
      ∃ m, FetchDownloader.download cache url fr =
        { result := Except.error m, cache := cache, fetched := true }) := by
  refine ⟨?_, ?_, ?_, ?_⟩
  · intro b hb
    simp [FetchDownloader.download, hb]
  · intro body hmiss hfr
    subst hfr
    simp [FetchDownloader.download, hmiss]
  · intro m hmiss hfr
    subst hfr
    simp [FetchDownloader.download, hmiss]
  · intro body hmiss hfr
    subst hfr
    exact ⟨"HTTP error! status for URL: " ++ url,
      by simp [FetchDownloader.download, hmiss]⟩

/-- C8 witness: the theorem applied at concrete inputs — a cache hit returns
the cached bytes without fetching, and a miss with a 2xx response populates
the cache. -/
theorem c8_download_witness :
    FetchDownloader.download [("u", [1, 2])] "u" (FetchOutcome.transportError "x") =
      { result := Except.ok [1, 2], cache := [("u", [1, 2])], fetched := false } ∧
    FetchDownloader.download [] "u" (FetchOutcome.response true [9]) =
      { result := Except.ok [9], cache := cacheSet [] "u" [9], fetched := true } :=
  ⟨(c8_download_cache_and_error_semantics [("u", [1, 2])] "u"
      (FetchOutcome.transportError "x")).1 [1, 2] rfl,
   (c8_download_cache_and_error_semantics [] "u"
      (FetchOutcome.response true [9])).2.1 [9] rfl rfl⟩

theorem waitDelay_le_1000 (notifyAfter : Option Nat) :
    waitDelay notifyAfter ≤ 1000 := by
  cases notifyAfter <;> simp [waitDelay]

theorem getNextPendingJob_time_bound
    (script : List (List ProcessorJob × Option Nat)) :
    ∀ (pending : List ProcessorJob) (t : Nat) (j : ProcessorJob)
      (rest : List ProcessorJob) (t' : Nat),
      ScraperProcessor.getNextPendingJob pending script t = some (j, rest, t') →
      t' ≤ t + 1000 * script.length := by
  induction script with
  | nil =>
    intro pending t j rest t' h
    cases pending with
    | nil => simp [ScraperProcessor.getNextPendingJob] at h
    | cons a l =>
      simp [ScraperProcessor.getNextPendingJob] at h
      omega
  | cons entry restScript ih =>
    intro pending t j rest t' h
    cases pending with
    | cons a l =>
      simp [ScraperProcessor.getNextPendingJob] at h
      omega
    | nil =>
      obtain ⟨qres, notify⟩ := entry
      cases qres with
      | cons b bs =>
        simp [ScraperProcessor.getNextPendingJob] at h
        omega
      | nil =>
        rw [show ScraperProcessor.getNextPendingJob []
              (([], notify) :: restScript) t =
            ScraperProcessor.getNextPendingJob [] restScript
              (t + waitDelay notify) from rfl] at h
        have hb := ih [] (t + waitDelay notify) j rest t' h
        have hw := waitDelay_le_1000 notify
        simp only [List.length_cons]
        omega

/-- C9. The empty-acquisition wait of `getNextPendingJob` is bounded: the
promise resolves at the stage's `NEW_JOBS` notification or at the 1000ms
timeout, whichever comes first (`waitDelay ≤ 1000`); after the wait the loop
retries the acquisition from the top; hence over any execution the
acquisition time exceeds the start time by at most 1000ms per store poll —
the store is re-polled at least once per second and no single wait blocks
indefinitely. -/
theorem c9_acquisition_wait_bounded :
    (∀ notifyAfter, waitDelay notifyAfter ≤ 1000) ∧
    (∀ (restScript : List (List ProcessorJob × Option Nat)) notifyAfter t,
      ScraperProcessor.getNextPendingJob [] (([], notifyAfter) :: restScript) t =
        ScraperProcessor.getNextPendingJob [] restScript
          (t + waitDelay notifyAfter)) ∧
    (∀ (pending : List ProcessorJob) script t j rest t',
      ScraperProcessor.getNextPendingJob pending script t = some (j, rest, t') →
        t' ≤ t + 1000 * script.length) := by
  refine ⟨waitDelay_le_1000, fun _ _ _ => rfl, ?_⟩
  intro pending script t j rest t' h
  exact getNextPendingJob_time_bound script pending t j rest t' h

/-- C9 witness: with an empty store poll whose notification arrives 300ms in,
followed by a poll returning a job, acquisition happens at t = 300, within
the 1000ms-per-poll bound. -/
theorem c9_acquisition_wait_bounded_witness :
    (300 : Nat) ≤ 0 + 1000 *
      ([([], some 300),
        ([({ url := "u", version := 1, attempt := 0, date := 50,
             processor := "s", error := none } : ProcessorJob)], none)] :
        List (List ProcessorJob × Option Nat)).length :=
  c9_acquisition_wait_bounded.2.2 [] _ 0 _ [] 300 rfl

theorem mem_batchInsertUrls_of_mem (jobs : List ProcessorJob)
    (urls : List String) (p : ScraperProcessor) (now : Nat) (url : String)
    (hu : url ∈ urls) :
    ∃ j ∈ InMemoryDatabase.batchInsertUrls jobs urls p now,
      j.url = url ∧ j.processor = p.name := by
  by_cases hex : jobs.any (fun j => j.url == url && j.processor == p.name) = true
  · obtain ⟨j, hj, hm⟩ := List.any_eq_true.mp hex
    simp only [Bool.and_eq_true, beq_iff_eq] at hm
    refine ⟨j, ?_, hm.1, hm.2⟩
    exact List.mem_append_left _ hj
  · have hex' : jobs.any (fun j => j.url == url && j.processor == p.name) = false :=
      Bool.eq_false_iff.mpr hex
    refine ⟨freshJob p url now, ?_, rfl, rfl⟩
    apply List.mem_append_right
    exact List.mem_map.mpr ⟨url, List.mem_filter.mpr ⟨hu, by simp [hex']⟩, rfl⟩

theorem mem_batchInsertUrls_mono (jobs : List ProcessorJob)
    (urls : List String) (p : ScraperProcessor) (now : Nat)
    {j : ProcessorJob} (h : j ∈ jobs) :
    j ∈ InMemoryDatabase.batchInsertUrls jobs urls p now :=
  List.mem_append_left _ h

theorem mem_flushStep_mono (now : Nat) (jobs : List ProcessorJob)
    (entry : ScraperProcessor × List String) {j : ProcessorJob}
    (h : j ∈ jobs) : j ∈ flushStep now jobs entry := by
  unfold flushStep
  split
  · exact h
  · exact mem_batchInsertUrls_mono _ _ _ _ h

theorem mem_foldl_flushStep_mono (now : Nat) :
    ∀ (pending : List (ScraperProcessor × List String))
      (jobs : List ProcessorJob) {j : ProcessorJob}, j ∈ jobs →
      j ∈ pending.foldl (flushStep now) jobs := by
  intro pending
  induction pending with
  | nil => intro jobs j h; simpa using h
  | cons e rest ih =>
    intro jobs j h
    simp only [List.foldl_cons]
    exact ih _ (mem_flushStep_mono _ _ _ h)

theorem mem_foldl_flushStep_of_pending (now : Nat) :
    ∀ (pending : List (ScraperProcessor × List String))
      (jobs : List ProcessorJob) (p : ScraperProcessor) (urls : List String)
      (url : String), (p, urls) ∈ pending → url ∈ urls →
      ∃ j ∈ pending.foldl (flushStep now) jobs,
        j.url = url ∧ j.processor = p.name := by
  intro pending
  induction pending with
  | nil => intro jobs p urls url hmem _; simp at hmem
  | cons e rest ih =>
    intro jobs p urls url hmem hu
    rcases List.mem_cons.mp hmem with he | he
    · subst he
      simp only [List.foldl_cons]
      have hne : urls.isEmpty = false := by
        cases urls
        · simp at hu
        · simp
      have hstep : flushStep now jobs (p, urls) =
          InMemoryDatabase.batchInsertUrls jobs urls p now := by
        simp [flushStep, hne]
      rw [hstep]
      obtain ⟨j, hj, hju, hjp⟩ := mem_batchInsertUrls_of_mem jobs urls p now url hu
      exact ⟨j, mem_foldl_flushStep_mono now rest _ hj, hju, hjp⟩
    · exact ih (flushStep now jobs e) p urls url he hu

/-- C10. After `close` the pending buffer is empty and every URL that was
buffered for a processor has a row in the store (inserted, or already
present for that (stage, url)); `close` emits no `NEW_JOBS` event (the event
trace is unchanged), while the debounced flush does emit one for each
processor with a non-empty buffer — so only debounced flushes wake waiting
workers. -/
theorem c10_close_flushes_without_notification (s : DbState) (now : Nat) :
    (Database.close s now).pending = [] ∧
    (Database.close s now).events = s.events ∧
    (∀ (p : ScraperProcessor) urls url, (p, urls) ∈ s.pending → url ∈ urls →
      ∃ j ∈ (Database.close s now).jobs, j.url = url ∧ j.processor = p.name) ∧
    (∀ (p : ScraperProcessor) urls, (p, urls) ∈ s.pending → urls ≠ [] →
      p.name ∈ (flushPending s now).events) := by
  refine ⟨rfl, rfl, ?_, ?_⟩
  · intro p urls url hmem hu
    exact mem_foldl_flushStep_of_pending now s.pending s.jobs p urls url hmem hu
  · intro p urls hmem hne
    simp only [flushPending]
    apply List.mem_append_right
    refine List.mem_map.mpr ⟨(p, urls), List.mem_filter.mpr ⟨hmem, ?_⟩, rfl⟩
    simpa using hne

/-- C10 witness: a store closed with one buffered URL ends with the row
present, and the corresponding debounced flush would have emitted the
stage-scoped event. -/
theorem c10_close_witness :
    (∃ j ∈ (Database.close ⟨[(⟨"s", 1, 1000000, 3⟩, ["u"])], [], []⟩ 50).jobs,
      j.url = "u" ∧ j.processor = "s") ∧
    "s" ∈ (flushPending ⟨[(⟨"s", 1, 1000000, 3⟩, ["u"])], [], []⟩ 50).events :=
  ⟨(c10_close_flushes_without_notification _ 50).2.2.1 ⟨"s", 1, 1000000, 3⟩
      ["u"] "u" (by simp) (by simp),
   (c10_close_flushes_without_notification _ 50).2.2.2 ⟨"s", 1, 1000000, 3⟩
      ["u"] (by simp) (by simp)⟩

end Scraper
